import Mathlib

/-!
Verification development for the terminal Christmas-tree / lyrics animation.
All definitions below are shallow embeddings of the Python source in
src/tree.py: strings are lists of characters, ANSI styling is modelled by
the escape character 27, timestamps are rationals, and the animation loop
is modelled by an explicit step function on an explicit state.
-/

/-! ## Basic character utilities -/

/-- Python whitespace test used by str.strip. -/
def isSpaceB (c : Char) : Bool :=
  c = ' ' || c = '\t' || c = '\n' || c = '\r' || c = '\x0b' || c = '\x0c'

/-- ASCII digit test, modelling the regex class for digits. -/
def isDigitC (c : Char) : Bool :=
  '0' ≤ c && c ≤ '9'

/-- Numeric value of a digit character. -/
def digitVal (c : Char) : Nat :=
  c.toNat - '0'.toNat

/-- A run of space characters, modelling the Python expression of a space repeated n times. -/
def spaces (n : Nat) : List Char :=
  List.replicate n ' '

/-- Python str.lstrip with default whitespace. -/
def lstrip (l : List Char) : List Char :=
  l.dropWhile isSpaceB

/-- Python str.rstrip with default whitespace. -/
def rstrip (l : List Char) : List Char :=
  (l.reverse.dropWhile isSpaceB).reverse

/-- Python str.strip with default whitespace. -/
def pyStrip (l : List Char) : List Char :=
  lstrip (rstrip l)

/-! ## strip_ansi

The source is: re.sub of the pattern ESC literal-bracket lazy-any m, replaced
by the empty string.  The scanner below is a faithful one-pass implementation:
on ESC followed by a literal bracket it starts buffering; the lazy any-char
part matches any character except newline up to the first m; an unterminated
candidate (newline or end of input before an m) is emitted verbatim, which is
what the regex does since no match can start inside such a region. -/

/-- Scanner for strip_ansi.  The first argument is the reversed buffer of a
candidate escape sequence currently being read (empty when outside one). -/
def stripGo : List Char → List Char → List Char
  | pending, [] => pending.reverse
  | pending, c :: rest =>
    if pending.isEmpty then
      if c = '\x1b' ∧ rest.head? = some '[' then stripGo ['[', c] rest.tail
      else c :: stripGo pending rest
    else
      if c = 'm' then stripGo [] rest
      else if c = '\n' then pending.reverse ++ c :: stripGo [] rest
      else stripGo (c :: pending) rest
termination_by _ l => l.length
decreasing_by all_goals (simp [List.length_cons, List.length_tail] <;> omega)

/-- Removes ANSI escape codes from a string (tree.py strip_ansi). -/
def strip_ansi (l : List Char) : List Char :=
  stripGo [] l

/-- Checks that a candidate code body consists of non-m, non-newline characters
and ends with the terminating m. -/
def bodyOk : List Char → Bool
  | [] => false
  | [c] => c = 'm'
  | c :: d :: rest => !(c = 'm') && !(c = '\n') && bodyOk (d :: rest)

/-- Checks that a character list is a complete ANSI color code as matched and
removed by strip_ansi. -/
def isCodeOk : List Char → Bool
  | c0 :: c1 :: rest => c0 = '\x1b' && c1 = '[' && bodyOk rest
  | _ => false

/-! ## Constants from tree.py -/

def HEIGHT : Nat := 20
def WIDTH : Nat := 40
def SEPARATOR_WIDTH : Nat := 6

/-- 1 (Star) + (HEIGHT // 2) (Branches) + 3 (Trunk). -/
def TOTAL_TREE_BODY_LINES : Nat := 1 + (HEIGHT / 2) + 3

def MAX_LYRIC_LINES : Nat := 15

def GREEN : List Char := "\x1b[92m".toList
def RED : List Char := "\x1b[91m".toList
def YELLOW : List Char := "\x1b[93m".toList
def BLUE : List Char := "\x1b[94m".toList
def CYAN : List Char := "\x1b[96m".toList
def MAGENTA : List Char := "\x1b[95m".toList
def WHITE : List Char := "\x1b[97m".toList
def RESET : List Char := "\x1b[0m".toList
def ORANGE : List Char := "\x1b[38;5;208m".toList
def GOLD : List Char := "\x1b[38;5;220m".toList
def PINK : List Char := "\x1b[38;5;200m".toList

def ALL_COLORS : List (List Char) := [RED, YELLOW, BLUE, CYAN, MAGENTA, ORANGE, GOLD, PINK]

def LYRICS_FRAME_WIDTH : Nat := 56

/-- Inner width of the lyric panel, excluding the two border columns. -/
def content_width : Nat := LYRICS_FRAME_WIDTH - 2

/-- Rows of the panel between the top and bottom borders. -/
def available_content_lines : Nat := TOTAL_TREE_BODY_LINES - 2

/-- Content rows available for lyrics, excluding the title row. -/
def available_lyric_lines : Nat := available_content_lines - 1

/-- Capacity of the scrolling lyric buffer in animate. -/
def max_lyrics_lines : Nat := available_content_lines - 1

/-- Initial scroll buffer in animate: blank lines, three fewer than capacity. -/
def visible_lyrics_init : List (List Char) :=
  List.replicate (max 0 (max_lyrics_lines - 3)) ([] : List Char)

/-! ## The LRC parser (tree.py parse_lrc) -/

/-- Regex match for the artist tag: literal bracket, a, r, colon, then a greedy
group followed by a closing bracket, so the group extends to the last closing
bracket of the line. -/
def matchAr (l : List Char) : Option (List Char) :=
  match l with
  | c0 :: c1 :: c2 :: c3 :: rest =>
    if c0 = '[' ∧ c1 = 'a' ∧ c2 = 'r' ∧ c3 = ':' then
      match rest.reverse.dropWhile (fun c => !(c = ']')) with
      | ']' :: pre => some pre.reverse
      | _ => none
    else none
  | _ => none

/-- Regex match for the title tag, analogous to the artist tag. -/
def matchTi (l : List Char) : Option (List Char) :=
  match l with
  | c0 :: c1 :: c2 :: c3 :: rest =>
    if c0 = '[' ∧ c1 = 't' ∧ c2 = 'i' ∧ c3 = ':' then
      match rest.reverse.dropWhile (fun c => !(c = ']')) with
      | ']' :: pre => some pre.reverse
      | _ => none
    else none
  | _ => none

/-- The fractional part of the timestamp: two or three digits followed by the
closing bracket, greedy with backtracking as in the regex.  A two-digit part
is right-padded with a zero before the integer conversion (ljust). -/
def matchFrac (l : List Char) : Option (Nat × List Char) :=
  match l with
  | e :: f :: rest =>
    if isDigitC e ∧ isDigitC f then
      match rest with
      | g :: rest2 =>
        if g = ']' then some ((10 * digitVal e + digitVal f) * 10, rest2)
        else
          if isDigitC g then
            match rest2 with
            | h :: text => if h = ']' then some (100 * digitVal e + 10 * digitVal f + digitVal g, text) else none
            | [] => none
          else none
      | [] => none
    else none
  | _ => none

/-- Regex match for a timed line: bracket, two digits, colon, two digits, dot,
fraction, bracket, then the rest of the line as the lyric group. -/
def matchTimed (l : List Char) : Option (Nat × Nat × Nat × List Char) :=
  match l with
  | c0 :: a :: b :: c1 :: c :: d :: c2 :: rest =>
    if c0 = '[' ∧ isDigitC a ∧ isDigitC b ∧ c1 = ':' ∧ isDigitC c ∧ isDigitC d ∧ c2 = '.' then
      match matchFrac rest with
      | some (ms, text) => some (10 * digitVal a + digitVal b, 10 * digitVal c + digitVal d, ms, text)
      | none => none
    else none
  | _ => none

/-- Parser state: title, artist and the accumulated timestamped entries. -/
structure PState where
  title : List Char
  artist : List Char
  entries : List (ℚ × List Char)

/-- Processing of one line of the lyric file, in the order of the source:
strip, skip empty, artist tag, title tag, timed line, otherwise ignore. -/
def processLine (st : PState) (raw : List Char) : PState :=
  let line := pyStrip raw
  if line = [] then st
  else
    match matchAr line with
    | some a => { st with artist := pyStrip a }
    | none =>
      match matchTi line with
      | some t => { st with title := pyStrip t }
      | none =>
        match matchTimed line with
        | some (m, s, ms, txt) =>
          { st with entries := st.entries ++ [((m : ℚ) * 60 + (s : ℚ) + (ms : ℚ) / 1000, pyStrip txt)] }
        | none => st

/-- parse_lrc: none models a file that cannot be opened, in which case the
defaults and an empty entry list are returned; some gives the lines. -/
def parse_lrc (file : Option (List (List Char))) : List Char × List Char × List (ℚ × List Char) :=
  match file with
  | none => ("Unknown Song".toList, "Unknown Artist".toList, [])
  | some lines =>
    let st := lines.foldl processLine ⟨"Unknown Song".toList, "Unknown Artist".toList, []⟩
    (st.title, st.artist, st.entries)

/-! ## Tree row generation (tree.py _get_tree_line_content)

Randomness is modelled by two oracles: orn j decides whether position j of a
branch row gets an ornament (the random draw below 0.2), and col j picks the
ornament color (random.choice over ALL_COLORS, modelled as an arbitrary
index reduced modulo the palette size). -/

/-- Builds the branch glyph run, position by position, as the source loop does. -/
def branchChars (orn : Nat → Bool) (col : Nat → Nat) (branch_width : Nat) : List Char :=
  (List.range branch_width).foldl
    (fun branch j =>
      branch ++ (if orn j then ALL_COLORS.getD (col j % ALL_COLORS.length) RED ++ ['●'] ++ GREEN else ['▲']))
    []

/-- Generates the tree content (Star, Branch, or Trunk) for a given line index. -/
def get_tree_line_content (orn : Nat → Bool) (col : Nat → Nat) (lyric_idx : Nat) : List Char :=
  if lyric_idx = 0 then
    spaces (WIDTH / 2 - 1) ++ YELLOW ++ ['★'] ++ RESET
  else if 1 ≤ lyric_idx ∧ lyric_idx ≤ TOTAL_TREE_BODY_LINES - 4 then
    let i := (lyric_idx - 1) * 2 + 1
    let branch_width := min i WIDTH
    spaces ((WIDTH - branch_width) / 2) ++ GREEN ++ branchChars orn col branch_width ++ RESET
  else if TOTAL_TREE_BODY_LINES - 3 ≤ lyric_idx ∧ lyric_idx < TOTAL_TREE_BODY_LINES then
    spaces ((WIDTH - HEIGHT / 4) / 2) ++ WHITE ++ List.replicate (HEIGHT / 4) '█' ++ RESET
  else []

/-! ## Panel rendering (tree.py draw_tree) -/

/-- Python str.center: left margin is half the margin, plus one when both the
margin and the width are odd. -/
def pyCenter (l : List Char) (w : Nat) : List Char :=
  if w ≤ l.length then l
  else
    let marg := w - l.length
    let left := marg / 2 + (marg &&& w &&& 1)
    spaces left ++ l ++ spaces (marg - left)

/-- The composed title string with decorative brackets and separator. -/
def formatted_title (title artist : List Char) : List Char :=
  '《' :: title ++ '》' :: ' ' :: '-' :: ' ' :: artist

/-- The title row content: centered title in yellow. -/
def title_line (title artist : List Char) : List Char :=
  YELLOW ++ pyCenter (formatted_title title artist) content_width ++ RESET

/-- Centering and truncation of one lyric within the inner panel width. -/
def center_lyric (lyric : List Char) : List Char :=
  if lyric.length < content_width then
    spaces ((content_width - lyric.length) / 2) ++ lyric ++
      spaces (content_width - lyric.length - (content_width - lyric.length) / 2)
  else lyric.take content_width

/-- A centered lyric wrapped in white styling. -/
def white_lyric (lyric : List Char) : List Char :=
  WHITE ++ center_lyric lyric ++ RESET

/-- A blank content row. -/
def empty_line : List Char :=
  spaces content_width

/-- The lyric rows: blanks above, then the current buffer contents. -/
def padded_lyrics (cur : List (List Char)) : List (List Char) :=
  List.replicate (available_lyric_lines - (cur.map white_lyric).length) empty_line ++ cur.map white_lyric

/-- The content chosen for a panel row: title on row 0, then lyric rows. -/
def panel_content (title artist : List Char) (cur : List (List Char)) (content_idx : Nat) : List Char :=
  if content_idx = 0 then title_line title artist
  else
    if content_idx - 1 < (padded_lyrics cur).length then (padded_lyrics cur).getD (content_idx - 1) []
    else spaces content_width

/-- Python substring containment test for the RESET marker. -/
def containsReset : List Char → Bool
  | [] => false
  | c :: rest => RESET.isPrefixOf (c :: rest) || containsReset rest

/-- Python str.replace of every RESET occurrence by a given replacement,
scanning left to right without overlap. -/
def replaceReset (rep : List Char) : List Char → List Char
  | [] => []
  | c :: rest =>
    if RESET.isPrefixOf (c :: rest) then rep ++ replaceReset rep ((c :: rest).drop RESET.length)
    else c :: replaceReset rep rest
termination_by l => l.length
decreasing_by
  all_goals simp [List.length_drop, List.length_cons]
  all_goals have h4 : RESET.length = 4 := rfl
  all_goals omega

/-- The width fix-up applied to every content row before the borders: when the
visible width falls short, padding is inserted before RESET when present,
otherwise appended. -/
def fix_width (l : List Char) : List Char :=
  let v := (strip_ansi l).length
  if v < content_width then
    if containsReset l then replaceReset (spaces (content_width - v) ++ RESET) l
    else l ++ spaces (content_width - v)
  else l

/-! ## Frame assembly (tree.py draw_tree printed lines)

Each call of the row generator draws fresh randomness, so the oracles take
the row index first. -/

/-- The tree glyphs of one frame row. -/
def tree_row (ornM : Nat → Nat → Bool) (colM : Nat → Nat → Nat) (idx : Nat) : List Char :=
  get_tree_line_content (ornM idx) (colM idx) idx

/-- The number of gap spaces printed between the tree row and the panel. -/
def row_gap (ornM : Nat → Nat → Bool) (colM : Nat → Nat → Nat) (idx : Nat) : Nat :=
  WIDTH + SEPARATOR_WIDTH - (strip_ansi (tree_row ornM colM idx)).length

/-- The first printed frame row: tree line 0, the gap, and the top border. -/
def top_row (ornM : Nat → Nat → Bool) (colM : Nat → Nat → Nat) : List Char :=
  tree_row ornM colM 0 ++ spaces (row_gap ornM colM 0) ++ BLUE ++
    '┌' :: List.replicate (LYRICS_FRAME_WIDTH - 2) '─' ++ ['┐'] ++ RESET

/-- A printed content row: tree line, gap, and the bordered panel content. -/
def content_row (ornM : Nat → Nat → Bool) (colM : Nat → Nat → Nat)
    (title artist : List Char) (cur : List (List Char)) (content_idx : Nat) : List Char :=
  tree_row ornM colM (content_idx + 1) ++ spaces (row_gap ornM colM (content_idx + 1)) ++ BLUE ++
    '│' :: fix_width (panel_content title artist cur content_idx) ++ ['│'] ++ RESET

/-- The last printed frame row: tree line, gap, and the bottom border. -/
def bottom_row (ornM : Nat → Nat → Bool) (colM : Nat → Nat → Nat) : List Char :=
  tree_row ornM colM (TOTAL_TREE_BODY_LINES - 1) ++
    spaces (row_gap ornM colM (TOTAL_TREE_BODY_LINES - 1)) ++ BLUE ++
    '└' :: List.replicate (LYRICS_FRAME_WIDTH - 2) '─' ++ ['┘'] ++ RESET

/-- All printed rows of one frame, top to bottom. -/
def draw_tree_rows (ornM : Nat → Nat → Bool) (colM : Nat → Nat → Nat)
    (title artist : List Char) (cur : List (List Char)) : List (List Char) :=
  top_row ornM colM ::
    ((List.range available_content_lines).map (content_row ornM colM title artist cur) ++
      [bottom_row ornM colM])

/-! ## The animation loop (tree.py animate, timed mode) -/

/-- State of the timed loop: the consumption cursor and the scroll buffer. -/
structure AnimState where
  next_lyric_index : Nat
  visible_lyrics : List (List Char)

/-- Appending one admitted lyric, evicting the oldest entry when over capacity. -/
def admitOne (buf : List (List Char)) (t : List Char) : List (List Char) :=
  let b := buf ++ [t]
  if max_lyrics_lines < b.length then b.tail else b

/-- A sequence of admissions, oldest first. -/
def admitFold (buf : List (List Char)) (ts : List (List Char)) : List (List Char) :=
  ts.foldl admitOne buf

/-- The per-iteration lyric update: when the next unconsumed entry is due at
the elapsed time, admit it and advance the cursor; otherwise do nothing. -/
def admitStep (entries : List (ℚ × List Char)) (e : ℚ) (s : AnimState) : AnimState :=
  match entries.get? s.next_lyric_index with
  | some ent =>
    if ent.1 ≤ e then
      { next_lyric_index := s.next_lyric_index + 1, visible_lyrics := admitOne s.visible_lyrics ent.2 }
    else s
  | none => s

/-- The per-iteration sleep computed after the update and the render. -/
def sleepDuration (entries : List (ℚ × List Char)) (cursor : Nat) (e : ℚ) : ℚ :=
  match entries.get? cursor with
  | some ent => if 0 < ent.1 - e then min (ent.1 - e) (1 / 10) else 1 / 100
  | none => 1 / 10

/-- Several loop iterations, one elapsed-time sample per iteration. -/
def runIters (entries : List (ℚ × List Char)) (es : List ℚ) (s : AnimState) : AnimState :=
  es.foldl (fun s e => admitStep entries e s) s

/-! ## Auxiliary descriptions used in the statements -/

/-- The visible glyphs of a branch row, one per position. -/
def branchVis (orn : Nat → Bool) (b : Nat) : List Char :=
  (List.range b).map (fun j => if orn j then '●' else '▲')

/-- The visible characters of a tree row. -/
def tree_line_visible (orn : Nat → Bool) (idx : Nat) : List Char :=
  if idx = 0 then spaces (WIDTH / 2 - 1) ++ ['★']
  else if 1 ≤ idx ∧ idx ≤ TOTAL_TREE_BODY_LINES - 4 then
    spaces ((WIDTH - min ((idx - 1) * 2 + 1) WIDTH) / 2) ++ branchVis orn (min ((idx - 1) * 2 + 1) WIDTH)
  else if TOTAL_TREE_BODY_LINES - 3 ≤ idx ∧ idx < TOTAL_TREE_BODY_LINES then
    spaces ((WIDTH - HEIGHT / 4) / 2) ++ List.replicate (HEIGHT / 4) '█'
  else []

/-- The visible width of a tree row as a function of the index alone. -/
def treeVisLen (idx : Nat) : Nat :=
  if idx = 0 then WIDTH / 2
  else if 1 ≤ idx ∧ idx ≤ TOTAL_TREE_BODY_LINES - 4 then
    (WIDTH - min ((idx - 1) * 2 + 1) WIDTH) / 2 + min ((idx - 1) * 2 + 1) WIDTH
  else if TOTAL_TREE_BODY_LINES - 3 ≤ idx ∧ idx < TOTAL_TREE_BODY_LINES then
    (WIDTH - HEIGHT / 4) / 2 + HEIGHT / 4
  else 0

/-- The left border glyph of the panel at a given frame row. -/
def borderGlyph (i : Nat) : Char :=
  if i = 0 then '┌' else if i < TOTAL_TREE_BODY_LINES - 1 then '│' else '└'

/-- Concrete lyric table used in counterexamples and witnesses. -/
def exEntries : List (ℚ × List Char) :=
  [(1, ['a']), (2, ['b']), (5, ['c'])]

/-! ## Lemmas about strip_ansi -/

theorem stripGo_nil (pending : List Char) : stripGo pending [] = pending.reverse := by
  simp [stripGo]

theorem strip_ansi_nil : strip_ansi [] = [] := by
  simp [strip_ansi, stripGo]

theorem stripGo_out_cons (c : Char) (rest : List Char)
    (h : ¬(c = '\x1b' ∧ rest.head? = some '[')) :
    stripGo [] (c :: rest) = c :: stripGo [] rest := by
  rw [stripGo]
  simp [h]

theorem stripGo_out_esc (rest : List Char) :
    stripGo [] ('\x1b' :: '[' :: rest) = stripGo ['[', '\x1b'] rest := by
  rw [stripGo]
  simp

theorem stripGo_in_m (pending rest : List Char) (hp : pending ≠ []) :
    stripGo pending ('m' :: rest) = stripGo [] rest := by
  rw [stripGo]
  simp [List.isEmpty_iff, hp]

theorem stripGo_in_push (pending rest : List Char) (c : Char) (hp : pending ≠ [])
    (hm : c ≠ 'm') (hn : c ≠ '\n') :
    stripGo pending (c :: rest) = stripGo (c :: pending) rest := by
  rw [stripGo]
  simp [List.isEmpty_iff, hp, hm, hn]

theorem strip_cons_noesc (c : Char) (l : List Char) (h : c ≠ '\x1b') :
    strip_ansi (c :: l) = c :: strip_ansi l := by
  unfold strip_ansi
  exact stripGo_out_cons c l (by simp [h])

theorem strip_append_plain (p s : List Char) (h : ∀ c ∈ p, c ≠ '\x1b') :
    strip_ansi (p ++ s) = p ++ strip_ansi s := by
  induction p with
  | nil => simp
  | cons c rest ih =>
    rw [List.cons_append, strip_cons_noesc c _ (h c (by simp)), ih (fun d hd => h d (by simp [hd]))]
    rfl

theorem strip_plain (p : List Char) (h : ∀ c ∈ p, c ≠ '\x1b') : strip_ansi p = p := by
  have := strip_append_plain p [] h
  simpa [strip_ansi_nil] using this

theorem stripGo_code_run : ∀ (body pending s : List Char), pending ≠ [] → bodyOk body = true →
    stripGo pending (body ++ s) = stripGo [] s := by
  intro body
  induction body with
  | nil => intro pending s hp hb; simp [bodyOk] at hb
  | cons c rest ih =>
    intro pending s hp hb
    cases rest with
    | nil =>
      have hc : c = 'm' := by simpa [bodyOk] using hb
      subst hc
      simpa using stripGo_in_m pending s hp
    | cons d rest2 =>
      simp only [bodyOk, Bool.and_eq_true, Bool.not_eq_true', decide_eq_false_iff_not] at hb
      rcases hb with ⟨⟨hc, hn⟩, hb2⟩
      rw [List.cons_append, stripGo_in_push pending _ c hp hc hn]
      exact ih (c :: pending) s (by simp) hb2

theorem strip_code (code s : List Char) (h : isCodeOk code = true) :
    strip_ansi (code ++ s) = strip_ansi s := by
  match code, h with
  | c0 :: c1 :: body, h =>
    simp only [isCodeOk, Bool.and_eq_true, decide_eq_true_eq] at h
    rcases h with ⟨⟨h0, h1⟩, hb⟩
    subst h0; subst h1
    show stripGo [] ('\x1b' :: '[' :: (body ++ s)) = strip_ansi s
    rw [stripGo_out_esc]
    exact stripGo_code_run body _ s (by simp) hb

theorem all_colors_ok : ∀ cde ∈ ALL_COLORS, isCodeOk cde = true := by decide

theorem green_ok : isCodeOk GREEN = true := by decide
theorem yellow_ok : isCodeOk YELLOW = true := by decide
theorem white_ok : isCodeOk WHITE = true := by decide
theorem reset_ok : isCodeOk RESET = true := by decide
theorem blue_ok : isCodeOk BLUE = true := by decide

theorem getD_color_ok (m : Nat) :
    isCodeOk (ALL_COLORS.getD (m % ALL_COLORS.length) RED) = true := by
  have hlt : m % ALL_COLORS.length < ALL_COLORS.length :=
    Nat.mod_lt _ (by decide)
  rw [List.getD_eq_getElem _ _ hlt]
  exact all_colors_ok _ (List.getElem_mem hlt)

theorem spaces_noesc (n : Nat) : ∀ c ∈ spaces n, c ≠ '\x1b' := by
  intro c hc
  rw [spaces, List.mem_replicate] at hc
  rw [hc.2]
  decide

theorem strip_spaces_append (n : Nat) (s : List Char) :
    strip_ansi (spaces n ++ s) = spaces n ++ strip_ansi s :=
  strip_append_plain _ _ (spaces_noesc n)

/-! ## Visible content of tree rows -/

theorem branchChars_zero (orn : Nat → Bool) (col : Nat → Nat) : branchChars orn col 0 = [] := by
  simp [branchChars]

theorem branchChars_succ (orn : Nat → Bool) (col : Nat → Nat) (b : Nat) :
    branchChars orn col (b + 1) = branchChars orn col b ++
      (if orn b then ALL_COLORS.getD (col b % ALL_COLORS.length) RED ++ ['●'] ++ GREEN else ['▲']) := by
  simp [branchChars, List.range_succ]

theorem branchVis_zero (orn : Nat → Bool) : branchVis orn 0 = [] := by
  simp [branchVis]

theorem branchVis_succ (orn : Nat → Bool) (b : Nat) :
    branchVis orn (b + 1) = branchVis orn b ++ [if orn b then '●' else '▲'] := by
  simp [branchVis, List.range_succ]

theorem strip_branch (orn : Nat → Bool) (col : Nat → Nat) :
    ∀ b s, strip_ansi (branchChars orn col b ++ s) = branchVis orn b ++ strip_ansi s := by
  intro b
  induction b with
  | zero => intro s; simp [branchChars_zero, branchVis_zero]
  | succ b ih =>
    intro s
    rw [branchChars_succ, List.append_assoc, ih, branchVis_succ]
    by_cases h : orn b
    · simp only [if_pos h, List.append_assoc, List.singleton_append, List.cons_append, List.nil_append]
      rw [strip_code _ _ (getD_color_ok (col b)),
        strip_cons_noesc '●' _ (by decide), strip_code GREEN _ green_ok]
      try simp
    · simp only [if_neg h, List.append_assoc, List.singleton_append, List.cons_append, List.nil_append]
      rw [strip_cons_noesc '▲' _ (by decide)]
      try simp

theorem strip_tree_append (orn : Nat → Bool) (col : Nat → Nat) (idx : Nat) (s : List Char) :
    strip_ansi (get_tree_line_content orn col idx ++ s) =
      tree_line_visible orn idx ++ strip_ansi s := by
  rw [get_tree_line_content, tree_line_visible]
  split_ifs with h1 h2 h3
  · simp only [List.append_assoc, List.singleton_append, List.cons_append, List.nil_append]
    rw [strip_spaces_append, strip_code YELLOW _ yellow_ok,
      strip_cons_noesc '★' _ (by decide), strip_code RESET _ reset_ok]
    try simp
  · simp only [List.append_assoc, List.singleton_append, List.cons_append, List.nil_append]
    rw [strip_spaces_append, strip_code GREEN _ green_ok, strip_branch,
      strip_code RESET _ reset_ok]
    try simp
  · simp only [List.append_assoc, List.singleton_append, List.cons_append, List.nil_append]
    rw [strip_spaces_append, strip_code WHITE _ white_ok,
      strip_append_plain (List.replicate (HEIGHT / 4) '█') _
        (by intro c hc; rw [List.mem_replicate] at hc; rw [hc.2]; decide),
      strip_code RESET _ reset_ok]
    try simp
  · simp

theorem strip_tree (orn : Nat → Bool) (col : Nat → Nat) (idx : Nat) :
    strip_ansi (get_tree_line_content orn col idx) = tree_line_visible orn idx := by
  have h := strip_tree_append orn col idx []
  simpa [strip_ansi_nil] using h

theorem branchVis_length (orn : Nat → Bool) (b : Nat) : (branchVis orn b).length = b := by
  simp [branchVis]

theorem tree_line_visible_length (orn : Nat → Bool) (idx : Nat) :
    (tree_line_visible orn idx).length = treeVisLen idx := by
  rw [tree_line_visible, treeVisLen]
  split_ifs <;> simp [spaces, branchVis] <;> try decide

theorem treeVisLen_le : ∀ idx, idx < TOTAL_TREE_BODY_LINES →
    treeVisLen idx ≤ WIDTH + SEPARATOR_WIDTH := by decide

/-! ## Panel content lemmas -/

theorem center_lyric_length (lyric : List Char) : (center_lyric lyric).length = content_width := by
  rw [center_lyric]
  split_ifs with h
  · simp only [List.length_append, spaces, List.length_replicate]
    omega
  · simp only [List.length_take]
    omega

theorem center_lyric_noesc (lyric : List Char) (h : ∀ c ∈ lyric, c ≠ '\x1b') :
    ∀ c ∈ center_lyric lyric, c ≠ '\x1b' := by
  rw [center_lyric]
  split_ifs with hlen
  · intro c hc
    rcases List.mem_append.1 hc with h1 | h2
    · rcases List.mem_append.1 h1 with h3 | h4
      · exact spaces_noesc _ c h3
      · exact h c h4
    · exact spaces_noesc _ c h2
  · intro c hc
    exact h c (List.take_subset _ _ hc)

theorem strip_reset_nil : strip_ansi RESET = [] := by
  have h := strip_code RESET [] reset_ok
  simpa [strip_ansi_nil] using h

theorem strip_white_wrap (x : List Char) (hx : ∀ c ∈ x, c ≠ '\x1b') :
    strip_ansi (WHITE ++ x ++ RESET) = x := by
  rw [List.append_assoc, strip_code WHITE _ white_ok, strip_append_plain x _ hx,
    strip_reset_nil, List.append_nil]

theorem white_lyric_strip (lyric : List Char) (h : ∀ c ∈ lyric, c ≠ '\x1b') :
    strip_ansi (white_lyric lyric) = center_lyric lyric := by
  rw [white_lyric]
  exact strip_white_wrap _ (center_lyric_noesc lyric h)

theorem empty_line_strip : strip_ansi empty_line = empty_line :=
  strip_plain _ (spaces_noesc _)

theorem empty_line_length : empty_line.length = content_width := by
  simp [empty_line, spaces]

theorem fix_width_of_full (l : List Char) (h : (strip_ansi l).length = content_width) :
    fix_width l = l := by
  rw [fix_width]
  simp [h]

theorem padded_lyrics_length (cur : List (List Char)) (h : cur.length ≤ available_lyric_lines) :
    (padded_lyrics cur).length = available_lyric_lines := by
  simp only [padded_lyrics, List.length_append, List.length_replicate, List.length_map]
  omega

theorem padded_lyrics_blank (cur : List (List Char)) (li : Nat)
    (h : li < available_lyric_lines - cur.length) :
    (padded_lyrics cur).getD li [] = empty_line := by
  rw [padded_lyrics]
  rw [List.getD_append _ _ _ _ (by simp only [List.length_replicate, List.length_map]; omega)]
  rw [List.getD_eq_getElem _ _ (by simp only [List.length_replicate, List.length_map]; omega)]
  simp

theorem padded_lyrics_lyric (cur : List (List Char)) (li : Nat)
    (hcur : cur.length ≤ available_lyric_lines)
    (h1 : available_lyric_lines - cur.length ≤ li) (h2 : li < available_lyric_lines) :
    (padded_lyrics cur).getD li [] =
      white_lyric (cur.getD (li - (available_lyric_lines - cur.length)) []) := by
  rw [padded_lyrics]
  rw [List.getD_append_right _ _ _ _ (by simp only [List.length_replicate, List.length_map]; omega)]
  simp only [List.length_replicate, List.length_map]
  have hidx : li - (available_lyric_lines - cur.length) < cur.length := by omega
  rw [List.getD_eq_getElem _ _ (by simp only [List.length_map]; omega),
    List.getElem_map, List.getD_eq_getElem _ _ hidx]

/-! ## Scroll buffer and animation loop lemmas -/

theorem admitOne_below (buf : List (List Char)) (t : List Char)
    (h : buf.length < max_lyrics_lines) : admitOne buf t = buf ++ [t] := by
  rw [admitOne]
  simp only [List.length_append, List.length_singleton]
  rw [if_neg (by omega)]

theorem admitOne_full (buf : List (List Char)) (t : List Char)
    (h : buf.length = max_lyrics_lines) : admitOne buf t = (buf ++ [t]).tail := by
  rw [admitOne]
  simp only [List.length_append, List.length_singleton]
  rw [if_pos (by omega)]

theorem admitFold_drop : ∀ (ts buf : List (List Char)), buf.length ≤ max_lyrics_lines →
    admitFold buf ts = (buf ++ ts).drop (buf.length + ts.length - max_lyrics_lines) := by
  intro ts
  induction ts with
  | nil =>
    intro buf h
    simp only [admitFold, List.foldl_nil, List.append_nil, List.length_nil, Nat.add_zero]
    rw [Nat.sub_eq_zero_of_le h, List.drop_zero]
  | cons t ts ih =>
    intro buf h
    have hstep : admitFold buf (t :: ts) = admitFold (admitOne buf t) ts := rfl
    by_cases hlt : buf.length < max_lyrics_lines
    · rw [hstep, admitOne_below buf t hlt, ih _ (by simp; omega)]
      have hidx : (buf ++ [t]).length + ts.length - max_lyrics_lines =
          buf.length + (t :: ts).length - max_lyrics_lines := by
        simp
        omega
      rw [hidx, List.append_assoc, List.singleton_append]
    · have heq : buf.length = max_lyrics_lines := le_antisymm h (not_lt.1 hlt)
      cases buf with
      | nil =>
        exfalso
        rw [List.length_nil] at heq
        have : max_lyrics_lines = 11 := by decide
        omega
      | cons b0 buf' =>
        rw [hstep, admitOne_full _ t heq]
        have htail : ((b0 :: buf') ++ [t]).tail = buf' ++ [t] := by simp
        rw [htail, ih _ (by simp at heq ⊢; omega)]
        have hidx : (buf' ++ [t]).length + ts.length - max_lyrics_lines = ts.length := by
          simp at heq ⊢
          omega
        have hidx2 : (b0 :: buf').length + (t :: ts).length - max_lyrics_lines =
            ts.length + 1 := by
          simp at heq ⊢
          omega
        rw [hidx, hidx2]
        have hassoc : (b0 :: buf') ++ t :: ts = b0 :: (buf' ++ [t] ++ ts) := by simp
        rw [hassoc, List.drop_succ_cons]

theorem admitStep_none (entries : List (ℚ × List Char)) (e : ℚ) (s : AnimState)
    (h : entries.length ≤ s.next_lyric_index) : admitStep entries e s = s := by
  rw [admitStep, List.get?_eq_none.2 h]

theorem runIters_none (entries : List (ℚ × List Char)) (es : List ℚ) (s : AnimState)
    (h : entries.length ≤ s.next_lyric_index) : runIters entries es s = s := by
  induction es with
  | nil => rfl
  | cons e es ih =>
    have hstep : runIters entries (e :: es) s = runIters entries es (admitStep entries e s) := rfl
    rw [hstep, admitStep_none entries e s h, ih]

/-! ## Claim C10: after full consumption the state is frozen -/

/-- C10: in timed mode the consumption cursor never exceeds the number of
parsed entries, and once it equals that number the loop state (cursor and
scroll buffer alike) is never mutated again, so every later frame renders the
same buffer. -/
theorem claim_C10 :
    (∀ (entries : List (ℚ × List Char)) (e : ℚ) (s : AnimState),
      s.next_lyric_index ≤ entries.length →
      (admitStep entries e s).next_lyric_index ≤ entries.length) ∧
    (∀ (entries : List (ℚ × List Char)) (es : List ℚ) (s : AnimState),
      s.next_lyric_index = entries.length → runIters entries es s = s) := by
  constructor
  · intro entries e s h
    cases hg : entries.get? s.next_lyric_index with
    | none =>
      rw [admitStep_none entries e s (List.get?_eq_none.1 hg)]
      exact h
    | some ent =>
      obtain ⟨hlt, -⟩ := List.get?_eq_some.1 hg
      rw [admitStep, hg]
      dsimp only
      by_cases hle : ent.1 ≤ e
      · rw [if_pos hle]
        exact hlt
      · rw [if_neg hle]
        exact h
  · intro entries es s h
    exact runIters_none entries es s (le_of_eq h.symm)

/-- C10 witness: with all three entries consumed, two further iterations leave
the state untouched. -/
theorem claim_C10_witness :
    (AnimState.mk 3 [['x']]).next_lyric_index = exEntries.length ∧
    runIters exEntries [7, 8] (AnimState.mk 3 [['x']]) = AnimState.mk 3 [['x']] :=
  ⟨rfl, claim_C10.2 exEntries [7, 8] (AnimState.mk 3 [['x']]) rfl⟩

/-! ## Claim C8: the sleep policy -/

/-- C8: after the per-iteration update, if an unconsumed entry remains the
sleep is min of the remaining delay and a tenth of a second when that delay is
positive, a hundredth of a second when the loop fell behind, and once every
entry is consumed each subsequent iteration sleeps a tenth of a second. -/
theorem claim_C8 :
    (∀ (entries : List (ℚ × List Char)) (e : ℚ) (s : AnimState) (off : ℚ) (txt : List Char),
      entries.get? (admitStep entries e s).next_lyric_index = some (off, txt) →
      (0 < off - e →
        sleepDuration entries (admitStep entries e s).next_lyric_index e = min (off - e) (1 / 10)) ∧
      (off - e ≤ 0 →
        sleepDuration entries (admitStep entries e s).next_lyric_index e = 1 / 100)) ∧
    (∀ (entries : List (ℚ × List Char)) (s : AnimState) (es : List ℚ) (e2 : ℚ),
      entries.length ≤ s.next_lyric_index →
      sleepDuration entries (runIters entries es s).next_lyric_index e2 = 1 / 10) := by
  constructor
  · intro entries e s off txt hg
    constructor
    · intro hpos
      rw [sleepDuration, hg]
      dsimp only
      rw [if_pos hpos]
    · intro hneg
      rw [sleepDuration, hg]
      dsimp only
      rw [if_neg (not_lt.2 hneg)]
  · intro entries s es e2 h
    rw [runIters_none entries es s h, sleepDuration, List.get?_eq_none.2 h]

/-- C8 witness: before the first entry is due, the computed sleep is the
minimum of the remaining delay and a tenth of a second. -/
theorem claim_C8_witness :
    exEntries.get? (admitStep exEntries 0 (AnimState.mk 0 [])).next_lyric_index =
      some (1, ['a']) ∧
    (0 : ℚ) < 1 - 0 ∧
    sleepDuration exEntries (admitStep exEntries 0 (AnimState.mk 0 [])).next_lyric_index 0 =
      min ((1 : ℚ) - 0) (1 / 10) := by
  have hg : exEntries.get? (admitStep exEntries 0 (AnimState.mk 0 [])).next_lyric_index =
      some (1, ['a']) := by
    norm_num [admitStep, exEntries, List.get?]
  exact ⟨hg, by norm_num,
    (claim_C8.1 exEntries 0 (AnimState.mk 0 []) 1 ['a'] hg).1 (by norm_num)⟩

/-! ## Claim C4: bounded FIFO behaviour of the scroll buffer -/

/-- C4: the scroll buffer never grows beyond the capacity max_lyrics_lines,
and after more than max_lyrics_lines admissions starting from the initial
buffer of the program it holds exactly the most recent max_lyrics_lines
admitted texts in admission order, oldest first. -/
theorem claim_C4 :
    (∀ (buf ts : List (List Char)), buf.length ≤ max_lyrics_lines →
      (admitFold buf ts).length ≤ max_lyrics_lines) ∧
    (∀ ts : List (List Char), max_lyrics_lines < ts.length →
      admitFold visible_lyrics_init ts = ts.drop (ts.length - max_lyrics_lines) ∧
      (admitFold visible_lyrics_init ts).length = max_lyrics_lines) := by
  have hinit : visible_lyrics_init.length = 8 := by decide
  have hcap : max_lyrics_lines = 11 := by decide
  constructor
  · intro buf ts h
    rw [admitFold_drop ts buf h, List.length_drop, List.length_append]
    omega
  · intro ts hlen
    have h1 : admitFold visible_lyrics_init ts =
        ts.drop (ts.length - max_lyrics_lines) := by
      rw [admitFold_drop ts visible_lyrics_init (by omega)]
      have hidx : visible_lyrics_init.length + ts.length - max_lyrics_lines =
          visible_lyrics_init.length + (ts.length - max_lyrics_lines) := by omega
      rw [hidx, List.drop_append]
    refine ⟨h1, ?_⟩
    rw [h1, List.length_drop]
    omega

/-- C4 witness: twelve admissions into the capacity-eleven buffer leave the
last eleven, in order. -/
theorem claim_C4_witness :
    max_lyrics_lines < (List.replicate 12 ['x']).length ∧
    admitFold visible_lyrics_init (List.replicate 12 ['x']) =
      (List.replicate 12 ['x']).drop ((List.replicate 12 ['x']).length - max_lyrics_lines) ∧
    (admitFold visible_lyrics_init (List.replicate 12 ['x'])).length = max_lyrics_lines :=
  ⟨by decide, (claim_C4.2 (List.replicate 12 ['x']) (by decide)).1,
    (claim_C4.2 (List.replicate 12 ['x']) (by decide)).2⟩

/-! ## Claim C1: admission of due entries -/

/-- C1 counterexample: with entries at offsets 1, 2 and 5 and elapsed time 6,
a single loop iteration admits only the first entry; the entry at offset 2 is
still due and unconsumed when the frame is rendered, refuting the claim that
every due entry is admitted before rendering. -/
theorem claim_C1_counterexample :
    (admitStep exEntries 6 (AnimState.mk 0 [])).next_lyric_index = 1 ∧
    exEntries.get? 1 = some (2, ['b']) ∧ (2 : ℚ) ≤ 6 := by
  refine ⟨?_, rfl, by norm_num⟩
  rw [admitStep]
  norm_num [exEntries, List.get?]

/-- C1 amended: each loop iteration admits at most one entry, namely the next
unconsumed one exactly when it is due; when the next k entries are all due at
the sampled elapsed times, k consecutive iterations admit exactly those k
entries, in file order, advancing the cursor by one per iteration (with a
frame rendered after each single admission). -/
theorem claim_C1_amended :
    (∀ (entries : List (ℚ × List Char)) (e : ℚ) (s : AnimState),
      (admitStep entries e s).next_lyric_index ≤ s.next_lyric_index + 1) ∧
    (∀ (entries : List (ℚ × List Char)) (e : ℚ) (k : Nat) (s : AnimState),
      (∀ j, j < k → ∃ off txt,
        entries.get? (s.next_lyric_index + j) = some (off, txt) ∧ off ≤ e) →
      (runIters entries (List.replicate k e) s).next_lyric_index = s.next_lyric_index + k ∧
      (runIters entries (List.replicate k e) s).visible_lyrics =
        admitFold s.visible_lyrics (((entries.drop s.next_lyric_index).take k).map Prod.snd)) := by
  constructor
  · intro entries e s
    cases hg : entries.get? s.next_lyric_index with
    | none =>
      rw [admitStep_none entries e s (List.get?_eq_none.1 hg)]
      omega
    | some ent =>
      rw [admitStep, hg]
      dsimp only
      by_cases hle : ent.1 ≤ e
      · rw [if_pos hle]
      · rw [if_neg hle]
        omega
  · intro entries e k
    induction k with
    | zero =>
      intro s _
      exact ⟨rfl, rfl⟩
    | succ k ih =>
      intro s hdue
      obtain ⟨off, txt, hg, hle⟩ := hdue 0 (Nat.succ_pos k)
      rw [Nat.add_zero] at hg
      obtain ⟨hlt, hget⟩ := List.get?_eq_some.1 hg
      have hstep : admitStep entries e s =
          AnimState.mk (s.next_lyric_index + 1) (admitOne s.visible_lyrics txt) := by
        rw [admitStep, hg]
        dsimp only
        rw [if_pos hle]
      have hrun : runIters entries (List.replicate (k + 1) e) s =
          runIters entries (List.replicate k e) (admitStep entries e s) := rfl
      have hdue2 : ∀ j, j < k → ∃ off2 txt2,
          entries.get? ((admitStep entries e s).next_lyric_index + j) = some (off2, txt2) ∧
          off2 ≤ e := by
        intro j hj
        obtain ⟨off2, txt2, hg2, hle2⟩ := hdue (j + 1) (by omega)
        refine ⟨off2, txt2, ?_, hle2⟩
        rw [hstep]
        have harith : s.next_lyric_index + 1 + j = s.next_lyric_index + (j + 1) := by omega
        rw [harith]
        exact hg2
      obtain ⟨ihc, ihb⟩ := ih (admitStep entries e s) hdue2
      constructor
      · rw [hrun, ihc, hstep]
        dsimp only
        omega
      · rw [hrun, ihb, hstep]
        have hdrop : entries.drop s.next_lyric_index =
            (off, txt) :: entries.drop (s.next_lyric_index + 1) := by
          rw [List.drop_eq_getElem_cons hlt]
          rw [List.get_eq_getElem] at hget
          rw [hget]
        rw [hdrop]
        dsimp only
        rw [List.take_succ_cons, List.map_cons]
        rfl

/-- C1 witness for the amended claim: with offsets 1, 2 and 5 all due at
elapsed time 6, three consecutive iterations admit all three entries in file
order. -/
theorem claim_C1_witness :
    (∀ j, j < 3 → ∃ off txt,
      exEntries.get? ((AnimState.mk 0 []).next_lyric_index + j) = some (off, txt) ∧
      off ≤ (6 : ℚ)) ∧
    (runIters exEntries (List.replicate 3 6) (AnimState.mk 0 [])).next_lyric_index =
      (AnimState.mk 0 []).next_lyric_index + 3 ∧
    (runIters exEntries (List.replicate 3 6) (AnimState.mk 0 [])).visible_lyrics =
      admitFold (AnimState.mk 0 []).visible_lyrics
        (((exEntries.drop (AnimState.mk 0 []).next_lyric_index).take 3).map Prod.snd) := by
  have hdue : ∀ j, j < 3 → ∃ off txt,
      exEntries.get? ((AnimState.mk 0 []).next_lyric_index + j) = some (off, txt) ∧
      off ≤ (6 : ℚ) := by
    intro j hj
    interval_cases j
    · exact ⟨1, ['a'], rfl, by norm_num⟩
    · exact ⟨2, ['b'], rfl, by norm_num⟩
    · exact ⟨5, ['c'], rfl, by norm_num⟩
  exact ⟨hdue, (claim_C1_amended.2 exEntries 6 3 (AnimState.mk 0 []) hdue).1,
    (claim_C1_amended.2 exEntries 6 3 (AnimState.mk 0 []) hdue).2⟩

/-! ## Claims C2 and C9: visible widths of tree rows -/

theorem treeVisLen_le_width : ∀ idx, idx < TOTAL_TREE_BODY_LINES → treeVisLen idx ≤ WIDTH := by
  decide

/-- C2 counterexample: the star row has visible width 20, not WIDTH = 40; the
generated rows are never padded on the right to the full tree width. -/
theorem claim_C2_counterexample :
    (strip_ansi (get_tree_line_content (fun _ => false) (fun _ => 0) 0)).length = 20 ∧
    (20 : Nat) ≠ WIDTH := by
  constructor
  · rw [strip_tree, tree_line_visible_length]
    decide
  · decide

/-- C2 amended: for every tree-body row index and every outcome of the random
ornament placement, the visible width of the generated row equals the centered
glyph width treeVisLen idx, which is at most WIDTH but not equal to it; column
alignment is instead maintained by the gap computation of draw_tree. -/
theorem claim_C2_amended :
    ∀ (orn : Nat → Bool) (col : Nat → Nat) (idx : Nat), idx < TOTAL_TREE_BODY_LINES →
      (strip_ansi (get_tree_line_content orn col idx)).length = treeVisLen idx ∧
      (strip_ansi (get_tree_line_content orn col idx)).length ≤ WIDTH := by
  intro orn col idx h
  rw [strip_tree, tree_line_visible_length]
  exact ⟨rfl, treeVisLen_le_width idx h⟩

/-- C2 witness: a branch row with every position an ornament still has the
predicted visible width, within WIDTH. -/
theorem claim_C2_witness :
    5 < TOTAL_TREE_BODY_LINES ∧
    ((strip_ansi (get_tree_line_content (fun _ => true) (fun _ => 7) 5)).length = treeVisLen 5 ∧
     (strip_ansi (get_tree_line_content (fun _ => true) (fun _ => 7) 5)).length ≤ WIDTH) :=
  ⟨by decide, claim_C2_amended (fun _ => true) (fun _ => 7) 5 (by decide)⟩

/-- C9: the visible width of a generated tree row does not depend on the
random draws, and equals WIDTH / 2 for the star row, (WIDTH - b) / 2 + b with
b = min (2 r - 1) WIDTH for branch row r, and (WIDTH - t) / 2 + t with
t = HEIGHT / 4 for trunk rows. -/
theorem claim_C9 :
    ∀ (orn orn2 : Nat → Bool) (col col2 : Nat → Nat) (idx : Nat), idx < TOTAL_TREE_BODY_LINES →
      (strip_ansi (get_tree_line_content orn col idx)).length =
        (strip_ansi (get_tree_line_content orn2 col2 idx)).length ∧
      (idx = 0 → (strip_ansi (get_tree_line_content orn col idx)).length = WIDTH / 2) ∧
      (1 ≤ idx → idx ≤ TOTAL_TREE_BODY_LINES - 4 →
        (strip_ansi (get_tree_line_content orn col idx)).length =
          (WIDTH - min (2 * idx - 1) WIDTH) / 2 + min (2 * idx - 1) WIDTH) ∧
      (TOTAL_TREE_BODY_LINES - 3 ≤ idx → idx < TOTAL_TREE_BODY_LINES →
        (strip_ansi (get_tree_line_content orn col idx)).length =
          (WIDTH - HEIGHT / 4) / 2 + HEIGHT / 4) := by
  intro orn orn2 col col2 idx h
  have hT : TOTAL_TREE_BODY_LINES = 14 := by decide
  rw [strip_tree, strip_tree, tree_line_visible_length, tree_line_visible_length]
  refine ⟨rfl, ?_, ?_, ?_⟩
  · intro h0
    subst h0
    decide
  · intro h1 h2
    rw [treeVisLen, if_neg (by omega), if_pos ⟨h1, h2⟩]
    have harith : (idx - 1) * 2 + 1 = 2 * idx - 1 := by omega
    rw [harith]
  · intro h3 h4
    rw [treeVisLen, if_neg (by omega), if_neg (by omega), if_pos ⟨h3, h4⟩]

/-- C9 witness: at branch row 5 the visible width is the same under two
different ornament outcomes and matches the branch formula. -/
theorem claim_C9_witness :
    5 < TOTAL_TREE_BODY_LINES ∧
    (strip_ansi (get_tree_line_content (fun _ => true) (fun _ => 3) 5)).length =
      (strip_ansi (get_tree_line_content (fun _ => false) (fun _ => 0) 5)).length ∧
    (1 ≤ 5 → 5 ≤ TOTAL_TREE_BODY_LINES - 4 →
      (strip_ansi (get_tree_line_content (fun _ => true) (fun _ => 3) 5)).length =
        (WIDTH - min (2 * 5 - 1) WIDTH) / 2 + min (2 * 5 - 1) WIDTH) := by
  refine ⟨by decide, ?_, ?_⟩
  · exact (claim_C9 (fun _ => true) (fun _ => false) (fun _ => 3) (fun _ => 0) 5 (by decide)).1
  · exact (claim_C9 (fun _ => true) (fun _ => false) (fun _ => 3) (fun _ => 0) 5 (by decide)).2.2.1

/-! ## Claim C3: the gap and the fixed border column -/

theorem get_at_append (A B : List Char) (b : Char) (R : List Char) (n : Nat)
    (h : A.length + B.length = n) :
    (A ++ (B ++ b :: R)).get? n = some b := by
  rw [List.get?_append_right (by omega), List.get?_append_right (by omega)]
  have hz : n - A.length - B.length = 0 := by omega
  rw [hz]
  rfl

theorem getD_cons_succ_eq {α : Type} (a : α) (l : List α) (j : Nat) (d : α) :
    (a :: l).getD (j + 1) d = l.getD j d := rfl

theorem getD_map_range {α : Type} (f : Nat → α) (n j : Nat) (d : α) (h : j < n) :
    ((List.range n).map f).getD j d = f j := by
  rw [List.getD_eq_getElem _ _ (by simp only [List.length_map, List.length_range]; omega),
    List.getElem_map, List.getElem_range]

theorem row_border_get (ornM : Nat → Nat → Bool) (colM : Nat → Nat → Nat) (idx : Nat)
    (b : Char) (X : List Char) (hb : b ≠ '\x1b') (h : idx < TOTAL_TREE_BODY_LINES) :
    (strip_ansi (tree_row ornM colM idx ++ spaces (row_gap ornM colM idx) ++ BLUE ++ b :: X)).get?
      (WIDTH + SEPARATOR_WIDTH) = some b := by
  simp only [List.append_assoc]
  rw [tree_row, strip_tree_append, strip_spaces_append, strip_code BLUE _ blue_ok,
    strip_cons_noesc b _ hb]
  apply get_at_append
  have hv := treeVisLen_le_width idx h
  have hv2 : treeVisLen idx ≤ WIDTH + SEPARATOR_WIDTH := treeVisLen_le idx h
  rw [tree_line_visible_length]
  simp only [spaces, List.length_replicate, row_gap, tree_row, strip_tree,
    tree_line_visible_length]
  omega

/-- C3: on every row of the frame the inserted gap has exactly
WIDTH + SEPARATOR_WIDTH minus the visible tree width many spaces, the visible
prefix before the panel therefore spans exactly WIDTH + SEPARATOR_WIDTH
columns, and the left border glyph of the panel appears at that fixed visible
column on every row, for every random outcome and every buffer. -/
theorem claim_C3 :
    ∀ (ornM : Nat → Nat → Bool) (colM : Nat → Nat → Nat) (title artist : List Char)
      (cur : List (List Char)) (i : Nat), i < TOTAL_TREE_BODY_LINES →
      row_gap ornM colM i =
        WIDTH + SEPARATOR_WIDTH - (strip_ansi (tree_row ornM colM i)).length ∧
      (strip_ansi (tree_row ornM colM i)).length + row_gap ornM colM i =
        WIDTH + SEPARATOR_WIDTH ∧
      (strip_ansi ((draw_tree_rows ornM colM title artist cur).getD i [])).get?
        (WIDTH + SEPARATOR_WIDTH) = some (borderGlyph i) := by
  intro ornM colM title artist cur i h
  have hT : TOTAL_TREE_BODY_LINES = 14 := by decide
  have hacl : available_content_lines = 12 := by decide
  refine ⟨rfl, ?_, ?_⟩
  · have hv2 : treeVisLen i ≤ WIDTH + SEPARATOR_WIDTH := treeVisLen_le i h
    rw [row_gap, tree_row, strip_tree, tree_line_visible_length]
    omega
  · by_cases h0 : i = 0
    · subst h0
      have hrow : (draw_tree_rows ornM colM title artist cur).getD 0 [] = top_row ornM colM :=
        rfl
      have hglyph : borderGlyph 0 = '┌' := rfl
      rw [hrow, hglyph, top_row]
      have hborder := row_border_get ornM colM 0 '┌'
        (List.replicate (LYRICS_FRAME_WIDTH - 2) '─' ++ ['┐'] ++ RESET) (by decide) (by omega)
      simp only [List.append_assoc, List.cons_append, List.singleton_append] at hborder ⊢
      exact hborder
    · by_cases hlast : i = TOTAL_TREE_BODY_LINES - 1
      · subst hlast
        have hrow : (draw_tree_rows ornM colM title artist cur).getD
            (TOTAL_TREE_BODY_LINES - 1) [] = bottom_row ornM colM := by
          rw [draw_tree_rows, hT]
          rw [show (14 : Nat) - 1 = 12 + 1 from rfl, getD_cons_succ_eq]
          rw [List.getD_append_right _ _ _ _
            (by simp only [List.length_map, List.length_range, hacl]; omega)]
          simp [hacl]
        have hglyph : borderGlyph (TOTAL_TREE_BODY_LINES - 1) = '└' := by
          rw [borderGlyph, if_neg (by omega), if_neg (by omega)]
        rw [hrow, hglyph, bottom_row]
        have hborder := row_border_get ornM colM (TOTAL_TREE_BODY_LINES - 1) '└'
          (List.replicate (LYRICS_FRAME_WIDTH - 2) '─' ++ ['┘'] ++ RESET) (by decide) (by omega)
        simp only [List.append_assoc, List.cons_append, List.singleton_append] at hborder ⊢
        exact hborder
      · have h1 : 1 ≤ i := by omega
        have h12 : i - 1 < available_content_lines := by omega
        have hrow : (draw_tree_rows ornM colM title artist cur).getD i [] =
            content_row ornM colM title artist cur (i - 1) := by
          rw [draw_tree_rows]
          cases i with
          | zero => exact absurd rfl h0
          | succ j =>
            rw [getD_cons_succ_eq]
            rw [List.getD_append _ _ _ _ (by simp only [List.length_map, List.length_range]; omega)]
            rw [getD_map_range _ _ _ _ (by omega)]
            simp
        have hglyph : borderGlyph i = '│' := by
          rw [borderGlyph, if_neg h0, if_pos (by omega)]
        rw [hrow, hglyph, content_row]
        have hidx : i - 1 + 1 = i := by omega
        rw [hidx]
        have hborder := row_border_get ornM colM i '│'
          (fix_width (panel_content title artist cur (i - 1)) ++ ['│'] ++ RESET) (by decide) h
        simp only [List.append_assoc, List.cons_append, List.singleton_append] at hborder ⊢
        exact hborder

/-- C3 witness: on the title row of a concrete frame the gap formula holds and
the border glyph sits at the fixed column. -/
theorem claim_C3_witness :
    1 < TOTAL_TREE_BODY_LINES ∧
    (row_gap (fun _ _ => false) (fun _ _ => 0) 1 =
      WIDTH + SEPARATOR_WIDTH -
        (strip_ansi (tree_row (fun _ _ => false) (fun _ _ => 0) 1)).length ∧
    (strip_ansi (tree_row (fun _ _ => false) (fun _ _ => 0) 1)).length +
        row_gap (fun _ _ => false) (fun _ _ => 0) 1 = WIDTH + SEPARATOR_WIDTH ∧
    (strip_ansi ((draw_tree_rows (fun _ _ => false) (fun _ _ => 0) [] [] []).getD 1 [])).get?
      (WIDTH + SEPARATOR_WIDTH) = some (borderGlyph 1)) :=
  ⟨by decide, claim_C3 (fun _ _ => false) (fun _ _ => 0) [] [] [] 1 (by decide)⟩

/-! ## Claim C7: panel lyric rows have visible width exactly content_width -/

/-- C7: for lyrics free of escape characters, every lyric row of the panel has
visible width exactly content_width: rows above the buffer occupancy are
all-space lines of that width, a buffered lyric shorter than the width is
centered between space padding summing to the width, and a longer one is
truncated to exactly the width with no wrapping. -/
theorem claim_C7 :
    ∀ (title artist : List Char) (cur : List (List Char)) (ci : Nat),
      (∀ lyr ∈ cur, ∀ c ∈ lyr, c ≠ '\x1b') →
      cur.length ≤ available_lyric_lines →
      1 ≤ ci → ci < available_content_lines →
      (strip_ansi (fix_width (panel_content title artist cur ci))).length = content_width ∧
      (ci - 1 < available_lyric_lines - cur.length →
        fix_width (panel_content title artist cur ci) = empty_line) ∧
      (∀ lyr, available_lyric_lines - cur.length ≤ ci - 1 →
        cur.getD (ci - 1 - (available_lyric_lines - cur.length)) [] = lyr →
        fix_width (panel_content title artist cur ci) = WHITE ++ center_lyric lyr ++ RESET ∧
        (lyr.length < content_width → ∃ pl pr,
          center_lyric lyr = spaces pl ++ lyr ++ spaces pr ∧
          pl + lyr.length + pr = content_width) ∧
        (content_width ≤ lyr.length →
          center_lyric lyr = lyr.take content_width ∧
          (lyr.take content_width).length = content_width)) := by
  intro title artist cur ci hesc hlen h1 h2
  have hv : available_content_lines = 12 := by decide
  have hv2 : available_lyric_lines = 11 := by decide
  have hci0 : ci ≠ 0 := by omega
  have hli : ci - 1 < available_lyric_lines := by omega
  have hcontent : panel_content title artist cur ci = (padded_lyrics cur).getD (ci - 1) [] := by
    rw [panel_content, if_neg hci0, if_pos (by rw [padded_lyrics_length cur hlen]; omega)]
  by_cases hblank : ci - 1 < available_lyric_lines - cur.length
  · have hrow : panel_content title artist cur ci = empty_line := by
      rw [hcontent, padded_lyrics_blank cur (ci - 1) hblank]
    have hfix : fix_width (panel_content title artist cur ci) = empty_line := by
      rw [hrow]
      exact fix_width_of_full _ (by rw [empty_line_strip, empty_line_length])
    refine ⟨?_, fun _ => hfix, ?_⟩
    · rw [hfix, empty_line_strip, empty_line_length]
    · intro lyr hge _
      omega
  · have hge : available_lyric_lines - cur.length ≤ ci - 1 := by omega
    have hidx : ci - 1 - (available_lyric_lines - cur.length) < cur.length := by omega
    have hmem : cur.getD (ci - 1 - (available_lyric_lines - cur.length)) [] ∈ cur := by
      rw [List.getD_eq_getElem _ _ hidx]
      exact List.getElem_mem hidx
    have hesc0 : ∀ c ∈ cur.getD (ci - 1 - (available_lyric_lines - cur.length)) [], c ≠ '\x1b' :=
      hesc _ hmem
    have hrow : panel_content title artist cur ci =
        white_lyric (cur.getD (ci - 1 - (available_lyric_lines - cur.length)) []) := by
      rw [hcontent, padded_lyrics_lyric cur (ci - 1) hlen hge hli]
    have hstrip : strip_ansi (panel_content title artist cur ci) =
        center_lyric (cur.getD (ci - 1 - (available_lyric_lines - cur.length)) []) := by
      rw [hrow, white_lyric_strip _ hesc0]
    have hfix : fix_width (panel_content title artist cur ci) =
        panel_content title artist cur ci :=
      fix_width_of_full _ (by rw [hstrip, center_lyric_length])
    refine ⟨?_, ?_, ?_⟩
    · rw [hfix, hstrip, center_lyric_length]
    · intro hlt
      omega
    · intro lyr hge2 heq
      refine ⟨by rw [hfix, hrow, heq, white_lyric], ?_, ?_⟩
      · intro hlt
        refine ⟨(content_width - lyr.length) / 2,
          content_width - lyr.length - (content_width - lyr.length) / 2, ?_, ?_⟩
        · rw [center_lyric, if_pos hlt]
        · have hdle : (content_width - lyr.length) / 2 ≤ content_width - lyr.length :=
            Nat.div_le_self _ _
          omega
      · intro hge3
        refine ⟨by rw [center_lyric, if_neg (not_lt.2 hge3)], ?_⟩
        rw [List.length_take]
        omega

/-- C7 witness: a frame with one short buffered lyric renders the last lyric
row as that lyric centered to the exact inner width. -/
theorem claim_C7_witness :
    (∀ lyr ∈ ([['h', 'i']] : List (List Char)), ∀ c ∈ lyr, c ≠ '\x1b') ∧
    ([['h', 'i']] : List (List Char)).length ≤ available_lyric_lines ∧
    1 ≤ 11 ∧ 11 < available_content_lines ∧
    ((strip_ansi (fix_width (panel_content [] [] [['h', 'i']] 11))).length = content_width ∧
      (11 - 1 < available_lyric_lines - ([['h', 'i']] : List (List Char)).length →
        fix_width (panel_content [] [] [['h', 'i']] 11) = empty_line) ∧
      (∀ lyr, available_lyric_lines - ([['h', 'i']] : List (List Char)).length ≤ 11 - 1 →
        ([['h', 'i']] : List (List Char)).getD
          (11 - 1 - (available_lyric_lines - ([['h', 'i']] : List (List Char)).length)) [] = lyr →
        fix_width (panel_content [] [] [['h', 'i']] 11) = WHITE ++ center_lyric lyr ++ RESET ∧
        (lyr.length < content_width → ∃ pl pr,
          center_lyric lyr = spaces pl ++ lyr ++ spaces pr ∧
          pl + lyr.length + pr = content_width) ∧
        (content_width ≤ lyr.length →
          center_lyric lyr = lyr.take content_width ∧
          (lyr.take content_width).length = content_width))) :=
  ⟨by decide, by decide, by decide, by decide,
    claim_C7 [] [] [['h', 'i']] 11 (by decide) (by decide) (by decide) (by decide)⟩

/-! ## Parser lemmas and claims C5, C6 -/

theorem digit_ne_chars (c : Char) (h : isDigitC c = true) :
    c ≠ 'a' ∧ c ≠ 't' ∧ c ≠ ']' := by
  refine ⟨?_, ?_, ?_⟩ <;> rintro rfl <;> exact absurd h (by decide)

theorem dropWhile_idem (p : Char → Bool) :
    ∀ x : List Char, List.dropWhile p (List.dropWhile p x) = List.dropWhile p x := by
  intro x
  induction x with
  | nil => rfl
  | cons c x ih =>
    by_cases h : p c
    · rw [List.dropWhile_cons_of_pos h]
      exact ih
    · rw [List.dropWhile_cons_of_neg h, List.dropWhile_cons_of_neg h]

theorem rstrip_idem (l : List Char) : rstrip (rstrip l) = rstrip l := by
  rw [rstrip, rstrip, List.reverse_reverse, dropWhile_idem]

theorem pyStrip_rstrip (t : List Char) : pyStrip (rstrip t) = pyStrip t := by
  rw [pyStrip, pyStrip, rstrip_idem]

theorem rstrip_append_nonspace (A t : List Char) (c : Char) (hc : isSpaceB c = false) :
    rstrip ((A ++ [c]) ++ t) = (A ++ [c]) ++ rstrip t := by
  rw [rstrip, List.reverse_append, List.dropWhile_append]
  by_cases hne : (t.reverse.dropWhile isSpaceB).isEmpty
  · rw [if_pos hne]
    have hrev : (A ++ [c]).reverse = c :: A.reverse := by simp
    rw [hrev, List.dropWhile_cons_of_neg (by simp [hc]), ← hrev, List.reverse_reverse]
    have hrt : rstrip t = [] := by
      rw [rstrip, List.isEmpty_iff.1 hne]
      rfl
    rw [hrt, List.append_nil]
  · rw [if_neg hne, List.reverse_append, List.reverse_reverse, rstrip]

theorem matchAr_none_of_digit (c1 c2 c3 : Char) (rest : List Char)
    (h : isDigitC c1 = true) : matchAr ('[' :: c1 :: c2 :: c3 :: rest) = none := by
  simp only [matchAr]
  rw [if_neg]
  rintro ⟨-, hca, -⟩
  exact (digit_ne_chars c1 h).1 hca

theorem matchTi_none_of_digit (c1 c2 c3 : Char) (rest : List Char)
    (h : isDigitC c1 = true) : matchTi ('[' :: c1 :: c2 :: c3 :: rest) = none := by
  simp only [matchTi]
  rw [if_neg]
  rintro ⟨-, hca, -⟩
  exact (digit_ne_chars c1 h).2.1 hca

/-- C6: when the lyric resource cannot be opened, parse_lrc does not fail: it
returns the default title, the default artist and an empty entry list. -/
theorem claim_C6 :
    parse_lrc none = ("Unknown Song".toList, "Unknown Artist".toList, []) := rfl

theorem processLine_timed (st : PState) (raw : List Char) (m1 m2 s1 s2 : Char)
    (R : List Char) (ms : Nat) (txt : List Char)
    (hline : pyStrip raw = '[' :: m1 :: m2 :: ':' :: s1 :: s2 :: '.' :: R)
    (hm1 : isDigitC m1 = true) (hm2 : isDigitC m2 = true)
    (hs1 : isDigitC s1 = true) (hs2 : isDigitC s2 = true)
    (hfrac : matchFrac R = some (ms, txt)) :
    processLine st raw = { st with entries := st.entries ++
      [(((10 * digitVal m1 + digitVal m2 : Nat) : ℚ) * 60 +
        ((10 * digitVal s1 + digitVal s2 : Nat) : ℚ) +
        ((ms : Nat) : ℚ) / 1000, pyStrip txt)] } := by
  have hTimed : matchTimed ('[' :: m1 :: m2 :: ':' :: s1 :: s2 :: '.' :: R) =
      some (10 * digitVal m1 + digitVal m2, 10 * digitVal s1 + digitVal s2, ms, txt) := by
    simp [matchTimed, hm1, hm2, hs1, hs2, hfrac]
  simp [processLine, hline, matchAr_none_of_digit m1 m2 ':' _ hm1,
    matchTi_none_of_digit m1 m2 ':' _ hm1, hTimed]

/-- C5: for every line of the timed form with two-digit minutes and seconds
and a two- or three-digit fraction, the parser appends exactly one entry whose
offset is minutes times sixty plus seconds plus the fraction (right-padded to
three digits) over one thousand, and whose text is the remainder trimmed of
surrounding whitespace; title and artist are unchanged. -/
theorem claim_C5 :
    ∀ (st : PState) (m1 m2 s1 s2 : Char) (t : List Char),
      isDigitC m1 = true → isDigitC m2 = true → isDigitC s1 = true → isDigitC s2 = true →
      (∀ f1 f2 f3 : Char, isDigitC f1 = true → isDigitC f2 = true → isDigitC f3 = true →
        processLine st ('[' :: m1 :: m2 :: ':' :: s1 :: s2 :: '.' :: f1 :: f2 :: f3 :: ']' :: t) =
          { st with entries := st.entries ++
            [(((10 * digitVal m1 + digitVal m2 : Nat) : ℚ) * 60 +
              ((10 * digitVal s1 + digitVal s2 : Nat) : ℚ) +
              ((100 * digitVal f1 + 10 * digitVal f2 + digitVal f3 : Nat) : ℚ) / 1000,
              pyStrip t)] }) ∧
      (∀ f1 f2 : Char, isDigitC f1 = true → isDigitC f2 = true →
        processLine st ('[' :: m1 :: m2 :: ':' :: s1 :: s2 :: '.' :: f1 :: f2 :: ']' :: t) =
          { st with entries := st.entries ++
            [(((10 * digitVal m1 + digitVal m2 : Nat) : ℚ) * 60 +
              ((10 * digitVal s1 + digitVal s2 : Nat) : ℚ) +
              (((10 * digitVal f1 + digitVal f2) * 10 : Nat) : ℚ) / 1000,
              pyStrip t)] }) := by
  intro st m1 m2 s1 s2 t hm1 hm2 hs1 hs2
  constructor
  · intro f1 f2 f3 hf1 hf2 hf3
    have hline : pyStrip ('[' :: m1 :: m2 :: ':' :: s1 :: s2 :: '.' :: f1 :: f2 :: f3 :: ']' :: t) =
        '[' :: m1 :: m2 :: ':' :: s1 :: s2 :: '.' :: f1 :: f2 :: f3 :: ']' :: rstrip t := by
      have h := rstrip_append_nonspace ['[', m1, m2, ':', s1, s2, '.', f1, f2, f3] t ']'
        (by decide)
      rw [pyStrip]
      rw [show ('[' :: m1 :: m2 :: ':' :: s1 :: s2 :: '.' :: f1 :: f2 :: f3 :: ']' :: t) =
        ((['[', m1, m2, ':', s1, s2, '.', f1, f2, f3] ++ [']']) ++ t) from rfl, h]
      rw [show ((['[', m1, m2, ':', s1, s2, '.', f1, f2, f3] ++ [']']) ++ rstrip t) =
        ('[' :: m1 :: m2 :: ':' :: s1 :: s2 :: '.' :: f1 :: f2 :: f3 :: ']' :: rstrip t) from rfl]
      rw [lstrip, List.dropWhile_cons_of_neg (by decide)]
    have hfrac : matchFrac (f1 :: f2 :: f3 :: ']' :: rstrip t) =
        some (100 * digitVal f1 + 10 * digitVal f2 + digitVal f3, rstrip t) := by
      simp [matchFrac, hf1, hf2, hf3, (digit_ne_chars f3 hf3).2.2]
    have h := processLine_timed st _ m1 m2 s1 s2 _ _ _ hline hm1 hm2 hs1 hs2 hfrac
    rw [pyStrip_rstrip] at h
    exact h
  · intro f1 f2 hf1 hf2
    have hline : pyStrip ('[' :: m1 :: m2 :: ':' :: s1 :: s2 :: '.' :: f1 :: f2 :: ']' :: t) =
        '[' :: m1 :: m2 :: ':' :: s1 :: s2 :: '.' :: f1 :: f2 :: ']' :: rstrip t := by
      have h := rstrip_append_nonspace ['[', m1, m2, ':', s1, s2, '.', f1, f2] t ']'
        (by decide)
      rw [pyStrip]
      rw [show ('[' :: m1 :: m2 :: ':' :: s1 :: s2 :: '.' :: f1 :: f2 :: ']' :: t) =
        ((['[', m1, m2, ':', s1, s2, '.', f1, f2] ++ [']']) ++ t) from rfl, h]
      rw [show ((['[', m1, m2, ':', s1, s2, '.', f1, f2] ++ [']']) ++ rstrip t) =
        ('[' :: m1 :: m2 :: ':' :: s1 :: s2 :: '.' :: f1 :: f2 :: ']' :: rstrip t) from rfl]
      rw [lstrip, List.dropWhile_cons_of_neg (by decide)]
    have hfrac : matchFrac (f1 :: f2 :: ']' :: rstrip t) =
        some ((10 * digitVal f1 + digitVal f2) * 10, rstrip t) := by
      simp [matchFrac, hf1, hf2]
    have h := processLine_timed st _ m1 m2 s1 s2 _ _ _ hline hm1 hm2 hs1 hs2 hfrac
    rw [pyStrip_rstrip] at h
    exact h

/-- C5 witness: the line with minutes 01, seconds 02 and two-digit fraction 50
yields one entry with offset 62.5 seconds and text X. -/
theorem claim_C5_witness :
    (isDigitC '0' = true ∧ isDigitC '1' = true ∧ isDigitC '2' = true ∧
      isDigitC '5' = true) ∧
    processLine (PState.mk "Unknown Song".toList "Unknown Artist".toList [])
        ('[' :: '0' :: '1' :: ':' :: '0' :: '2' :: '.' :: '5' :: '0' :: ']' :: ['X']) =
      { PState.mk "Unknown Song".toList "Unknown Artist".toList [] with
        entries := (PState.mk "Unknown Song".toList "Unknown Artist".toList []).entries ++
          [(((10 * digitVal '0' + digitVal '1' : Nat) : ℚ) * 60 +
            ((10 * digitVal '0' + digitVal '2' : Nat) : ℚ) +
            (((10 * digitVal '5' + digitVal '0') * 10 : Nat) : ℚ) / 1000,
            pyStrip ['X'])] } :=
  ⟨⟨by decide, by decide, by decide, by decide⟩,
    (claim_C5 (PState.mk "Unknown Song".toList "Unknown Artist".toList [])
      '0' '1' '0' '2' ['X'] (by decide) (by decide) (by decide) (by decide)).2
      '5' '0' (by decide) (by decide)⟩
